/-
Verification of the saldo-prototype ETL pipeline (src/etl.py) and the
categorization write-back (src/pages/categorize_transactions.py,
src/utils/data_utils.py).

Modelling conventions (shallow embedding):
* A pandas DataFrame of raw CSV data is a `RawTable`: a list of column names
  plus rows of cells; a cell is `Option String` (`none` = NaN/missing).
* `pd.to_numeric(-, errors := coerce)` and `pd.to_datetime` are parameters
  (`toNumeric`, `toDatetime`) of the development: the embedding is parametric
  in the host library's scalar parsers.  `errors := coerce` per-cell failures
  are `none`; the try/except fallback around a format-carrying
  `pd.to_datetime` call is folded into the `toDatetime` parameter.
* Timestamps (`datetime.now().isoformat()`) are an explicit `now : String`
  argument threaded through normalization.
* The md5-prefix transaction id is a deterministic function of
  `(account_id, date, amount, description)`; it is modelled as the quadruple
  itself (`TxId`), i.e. the digest is treated as collision-free, which is the
  identity semantics the repository relies on.
* `DataFrame.sort_values([account_id, date])` is modelled as the stable
  `List.mergeSort` under the lexicographic key.
* Python exceptions escaping a modelled function are `Except.error ()`;
  functions that log and return an empty frame return `.ok []` / leave the
  ledger state unchanged, exactly where the source does.
-/
import Mathlib

set_option maxHeartbeats 1000000

namespace Saldo

open List

/-! ### Stable-sort infrastructure

`etl.py` sorts the merged ledger with `sort_values([account_id, date])`.
The idempotence and window-replacement claims need two facts about a stable
sort: it commutes with `filter`, and re-sorting an already-sorted prefix is
harmless.  Both are proved by decorating the list with indices (`enum`) so
that the order becomes antisymmetric, following the structure of the
stability lemmas in core's `Init.Data.List.Sort.Lemmas`. -/

/-- In a list whose `Prod.fst` projections are distinct, two members with
equal first components are equal. -/
theorem eq_of_mem_of_fst_nodup {l : List (Nat × α)} (h : (l.map Prod.fst).Nodup)
    {u v : Nat × α} (hu : u ∈ l) (hv : v ∈ l) (hfst : u.1 = v.1) : u = v :=
  inj_on_of_nodup_map h hu hv hfst

/-- Weakened form of core's `merge_stable`: the merge of enumerated lists
projects to the merge of the projections as soon as *tied* cross pairs are
index-ordered (core requires all cross pairs to be index-ordered). -/
theorem merge_stable_of_ties (le : α → α → Bool) :
    ∀ (xs ys : List (Nat × α))
      (_ : ∀ x ∈ xs, ∀ y ∈ ys, le x.2 y.2 → le y.2 x.2 → x.1 ≤ y.1),
      (merge xs ys (enumLE le)).map (·.2)
        = merge (xs.map (·.2)) (ys.map (·.2)) le
  | [], ys, _ => by simp
  | x :: xs, [], _ => by simp
  | (i, x) :: xs, (j, y) :: ys, h => by
    by_cases hxy : le x y
    · have hleft : enumLE le (i, x) (j, y) = true := by
        by_cases hyx : le y x
        · have hij : i ≤ j := h _ (mem_cons_self _ _) _ (mem_cons_self _ _) hxy hyx
          simp [enumLE, hxy, hyx, hij]
        · simp [enumLE, hxy, hyx]
      rw [cons_merge_cons, if_pos hleft, map_cons, map_cons, map_cons, cons_merge_cons,
        if_pos (by simpa using hxy)]
      rw [merge_stable_of_ties le xs ((j, y) :: ys)
        (fun a ha b hb => h a (mem_cons_of_mem _ ha) b hb), map_cons]
    · have hleft : enumLE le (i, x) (j, y) = false := by
        simp [enumLE, hxy]
      rw [cons_merge_cons, if_neg (by simp [hleft]), map_cons, map_cons, map_cons,
        cons_merge_cons, if_neg (by simpa using hxy)]
      rw [merge_stable_of_ties le ((i, x) :: xs) ys
        (fun a ha b hb => h a ha b (mem_cons_of_mem _ hb)), map_cons]

/-- The relation "tied pairs are index-ordered" used for stability. -/
def TiesOrdered (le : α → α → Bool) (x y : Nat × α) : Prop :=
  le x.2 y.2 → le y.2 x.2 → x.1 ≤ y.1

theorem tiesOrdered_of_enumLE {le : α → α → Bool} {x y : Nat × α}
    (h : enumLE le x y) : TiesOrdered le x y := by
  intro h1 h2
  simpa [enumLE, h1, h2] using h

/-- Weakened form of core's `mergeSort_enum`: sorting an index-decorated list
with `enumLE` and projecting gives the sort of the projection, whenever tied
pairs of the input are index-ordered. -/
theorem mergeSort_map_snd_of_ties (le : α → α → Bool) :
    ∀ (l : List (Nat × α)) (_ : l.Pairwise (TiesOrdered le)),
      (l.mergeSort (enumLE le)).map (·.2) = (l.map (·.2)).mergeSort le
  | [], _ => by simp
  | [a], _ => by simp
  | a :: b :: xs, h => by
    have hl1 : (splitInTwo ⟨a :: b :: xs, rfl⟩).1.1.length < xs.length + 1 + 1 := by
      simp [splitInTwo_fst]; omega
    have hl2 : (splitInTwo ⟨a :: b :: xs, rfl⟩).2.1.length < xs.length + 1 + 1 := by
      simp [splitInTwo_snd]; omega
    have happ := splitInTwo_fst_append_splitInTwo_snd ⟨a :: b :: xs, rfl⟩
    have hpw : ((splitInTwo ⟨a :: b :: xs, rfl⟩).1.1
        ++ (splitInTwo ⟨a :: b :: xs, rfl⟩).2.1).Pairwise (TiesOrdered le) := by
      rw [happ]; exact h
    rw [pairwise_append] at hpw
    rw [show (a :: b :: xs).mergeSort (enumLE le)
        = merge ((splitInTwo ⟨a :: b :: xs, rfl⟩).1.1.mergeSort (enumLE le))
            ((splitInTwo ⟨a :: b :: xs, rfl⟩).2.1.mergeSort (enumLE le)) (enumLE le)
      from by rw [List.mergeSort]]
    rw [merge_stable_of_ties le _ _ (by
      intro x hx y hy
      rw [mem_mergeSort] at hx hy
      exact hpw.2.2 x hx y hy)]
    rw [mergeSort_map_snd_of_ties le _ hpw.1, mergeSort_map_snd_of_ties le _ hpw.2.1]
    have hmap : (a :: b :: xs).map (·.2) = a.2 :: b.2 :: xs.map (·.2) := rfl
    rw [hmap]
    rw [show (a.2 :: b.2 :: xs.map (·.2)).mergeSort le
        = merge ((splitInTwo ⟨a.2 :: b.2 :: xs.map (·.2), rfl⟩).1.1.mergeSort le)
            ((splitInTwo ⟨a.2 :: b.2 :: xs.map (·.2), rfl⟩).2.1.mergeSort le) le
      from by rw [List.mergeSort]]
    congr 2
    · rw [splitInTwo_fst, splitInTwo_fst]
      simp [map_take]
    · rw [splitInTwo_snd, splitInTwo_snd]
      simp [map_drop]
termination_by l => l.length

section SortComm

variable {le : α → α → Bool}
variable (htrans : ∀ (a b c : α), le a b → le b c → le a c)
variable (htotal : ∀ (a b : α), le a b || le b a)

include htrans htotal in
/-- Filtering commutes with the stable sort. -/
theorem mergeSort_filter_comm (p : α → Bool) (l : List α) :
    (l.mergeSort le).filter p = (l.filter p).mergeSort le := by
  have henum := @mergeSort_enum α le l
  rw [← henum, filter_map]
  have hstep : (l.enum.mergeSort (enumLE le)).filter (p ∘ (·.2))
      = (l.enum.filter (p ∘ (·.2))).mergeSort (enumLE le) := by
    apply @Perm.eq_of_sorted _ (fun x y => enumLE le x y = true) _ _
    · intro u v hu hv huv hvu
      have hu' : u ∈ l.enum := by
        have := (@filter_sublist _ (p ∘ (·.2)) (l.enum.mergeSort (enumLE le))).subset hu
        rwa [mem_mergeSort] at this
      have hv' : v ∈ l.enum := by
        have := ((mergeSort_perm (l.enum.filter (p ∘ (·.2))) (enumLE le)).subset hv)
        exact (filter_sublist l.enum).subset this
      have hnodup : (l.enum.map Prod.fst).Nodup := by
        rw [enum_map_fst]; exact nodup_range _
      have hfst : u.1 = v.1 := by
        by_cases h1 : le u.2 v.2
        · by_cases h2 : le v.2 u.2
          · have huv' : u.1 ≤ v.1 := by simpa [enumLE, h1, h2] using huv
            have hvu' : v.1 ≤ u.1 := by simpa [enumLE, h1, h2] using hvu
            omega
          · simp [enumLE, h1, h2] at hvu
        · simp [enumLE, h1] at huv
      exact eq_of_mem_of_fst_nodup hnodup hu' hv' hfst
    · exact Pairwise.filter _ (sorted_mergeSort (enumLE_trans htrans) (enumLE_total htotal) _)
    · exact sorted_mergeSort (enumLE_trans htrans) (enumLE_total htotal) _
    · exact ((mergeSort_perm l.enum (enumLE le)).filter _).trans
        (mergeSort_perm (l.enum.filter (p ∘ (·.2))) (enumLE le)).symm
  rw [hstep]
  rw [mergeSort_map_snd_of_ties le _ (by
    apply Pairwise.sublist (filter_sublist _)
    have : (l.enum.map Prod.fst).Pairwise (· < ·) := by
      rw [enum_map_fst]; exact pairwise_lt_range _
    rw [pairwise_map] at this
    exact this.imp (fun h _ _ => Nat.le_of_lt h))]
  rw [← filter_map, enum_map_snd]

include htrans htotal in
/-- Re-sorting after sorting a prefix is the same as sorting once. -/
theorem mergeSort_sorted_append (a b : List α) :
    (a.mergeSort le ++ b).mergeSort le = (a ++ b).mergeSort le := by
  have hsortA := @mergeSort_enum α le a
  have hb : b = (b.enumFrom a.length).map (·.2) := (enumFrom_map_snd _ _).symm
  have hY : a.mergeSort le ++ b
      = ((a.enum.mergeSort (enumLE le)) ++ b.enumFrom a.length).map (·.2) := by
    rw [map_append, hsortA, ← hb]
  rw [hY]
  have hties : ((a.enum.mergeSort (enumLE le)) ++ b.enumFrom a.length).Pairwise
      (TiesOrdered le) := by
    rw [pairwise_append]
    refine ⟨?_, ?_, ?_⟩
    · exact (sorted_mergeSort (enumLE_trans htrans) (enumLE_total htotal) _).imp
        (fun h => tiesOrdered_of_enumLE h)
    · have : ((b.enumFrom a.length).map Prod.fst).Pairwise (· < ·) := by
        rw [enumFrom_map_fst]; exact pairwise_lt_range' _ _
      rw [pairwise_map] at this
      exact this.imp (fun h _ _ => Nat.le_of_lt h)
    · intro x hx y hy _ _
      rw [mem_mergeSort] at hx
      have hx' : x.1 < 0 + a.length := fst_lt_add_of_mem_enumFrom (by simpa [enum] using hx)
      have hy' : a.length ≤ y.1 := le_fst_of_mem_enumFrom hy
      omega
  rw [← mergeSort_map_snd_of_ties le _ hties]
  have hkey : ((a.enum.mergeSort (enumLE le)) ++ b.enumFrom a.length).mergeSort (enumLE le)
      = ((a ++ b).enum).mergeSort (enumLE le) := by
    apply @Perm.eq_of_sorted _ (fun x y => enumLE le x y = true) _ _
    · intro u v hu hv huv hvu
      have hperm : ((a.enum.mergeSort (enumLE le)) ++ b.enumFrom a.length) ~ (a ++ b).enum := by
        rw [enum_append]
        exact (mergeSort_perm a.enum (enumLE le)).append_right _
      have hu' : u ∈ (a ++ b).enum := hperm.subset (by rwa [mem_mergeSort] at hu)
      have hv' : v ∈ (a ++ b).enum := by
        have := (mergeSort_perm ((a ++ b).enum) (enumLE le)).subset (by exact hv)
        exact this
      have hnodup : ((a ++ b).enum.map Prod.fst).Nodup := by
        rw [enum_map_fst]; exact nodup_range _
      have hfst : u.1 = v.1 := by
        by_cases h1 : le u.2 v.2
        · by_cases h2 : le v.2 u.2
          · have huv' : u.1 ≤ v.1 := by simpa [enumLE, h1, h2] using huv
            have hvu' : v.1 ≤ u.1 := by simpa [enumLE, h1, h2] using hvu
            omega
          · simp [enumLE, h1, h2] at hvu
        · simp [enumLE, h1] at huv
      exact eq_of_mem_of_fst_nodup hnodup hu' hv' hfst
    · exact sorted_mergeSort (enumLE_trans htrans) (enumLE_total htotal) _
    · exact sorted_mergeSort (enumLE_trans htrans) (enumLE_total htotal) _
    · refine (mergeSort_perm _ (enumLE le)).trans (Perm.trans ?_
        (mergeSort_perm ((a ++ b).enum) (enumLE le)).symm)
      rw [enum_append]
      exact (mergeSort_perm a.enum (enumLE le)).append_right _
  rw [hkey, mergeSort_enum]

end SortComm

/-! ### Data model (src/etl.py metadata tables and raw input) -/

/-- One row of a raw CSV file: column name to cell; a missing pair or a
`none` cell both model NaN. -/
abbrev RawRow := List (String × Option String)

/-- `df[col]` for one row: `none` is NaN (absent pair or empty cell). -/
def getCell (r : RawRow) (c : String) : Option String :=
  match r.lookup c with
  | some v => v
  | none => none

/-- A raw DataFrame: its column index plus its rows. -/
structure RawTable where
  cols : List String
  rows : List RawRow
deriving DecidableEq

/-- One row of `data/metadata/accounts.csv` (the fields the ETL reads). -/
structure Account where
  id : Int
  number : Int
  default_import_preset_id : Option Int
deriving DecidableEq

/-- One row of `data/metadata/categories.csv` (the fields the ETL reads). -/
structure Category where
  id : Int
  name : String
deriving DecidableEq

/-- The `amount_processing` JSON blob of a preset, parsed
(`parse_amount_processing`); absent keys are `none` / `[]`. -/
structure AmountProcessing where
  debit_column : Option String := none
  credit_column : Option String := none
  debit_multiplier : Option Rat := none
  credit_multiplier : Option Rat := none
  amount_column : Option String := none
  transaction_type_column : Option String := none
  debit_values : List String := []
  credit_values : List String := []
  amount_multiplier : Option Rat := none
deriving DecidableEq

/-- One row of `data/metadata/presets.csv` (the fields the ETL reads);
`none` models both an absent column and a NaN cell (`pd.notna` checks).
`amount_columns` is the parsed `amount_columns` JSON list. -/
structure Preset where
  id : Int
  date_column : Option String := none
  date_format : Option String := none
  description_column : Option String := none
  transaction_type_column : Option String := none
  category_column : Option String := none
  amount_columns : List String := []
  amount_processing : AmountProcessing := {}
  amount_multiplier : Option Rat := none
deriving DecidableEq

/-- `generate_transaction_id`: the source computes
`md5(f"{account_id}_{date}_{amount}_{description}")[:12]` — a deterministic
digest of the quadruple.  The digest is modelled as the quadruple itself
(hash-prefix collisions between distinct quadruples are outside the
embedding; the repository treats the id as a pure, collision-free function
of these four fields). -/
structure TxId where
  account_id : Int
  date : Nat
  amount : Rat
  description : String
deriving DecidableEq

def generate_transaction_id (account_id : Int) (date : Nat) (amount : Rat)
    (description : String) : TxId :=
  ⟨account_id, date, amount, description⟩

/-- One canonical ledger row (the nine `CANONICAL_COLUMNS` fields).
`date` is a day number (timezone-naive datetime); `created_at`/`updated_at`
are opaque timestamp strings. -/
structure Row where
  id : TxId
  date : Nat
  description : String
  amount : Rat
  created_at : String
  updated_at : String
  account_id : Int
  category_id : Option Int
  transaction_type : String
deriving DecidableEq

/-- The persisted `data/processed/transactions.csv`:
`none` models an absent file. -/
structure LedgerState where
  file : Option (List Row)
deriving DecidableEq

/-- `CANONICAL_COLUMNS` of src/etl.py, in source order. -/
def CANONICAL_COLUMNS : List String :=
  ["id", "date", "description", "amount", "created_at", "updated_at",
   "account_id", "category_id", "transaction_type"]

/-! ### Amount resolution (process_amount_with_preset) -/

/-- `pd.to_numeric(cell, errors=coerce).fillna(0)` for one cell. -/
def toNum0 (toNumeric : String → Option Rat) (c : Option String) : Rat :=
  ((c.bind toNumeric).getD 0)

/-- `df[type_col].isin(debit_values)` for one row (NaN is in no set). -/
def isinValues (r : RawRow) (tc : String) (vals : List String) : Bool :=
  match getCell r tc with
  | some v => vals.contains v
  | none => false

/-- `process_amount_with_preset`, returning the resulting `amount` column
(one value per input row).  `.error ()` is a Python exception escaping the
function (a `KeyError` on a missing column, or — in the no-`amount_columns`
path, where the source hands the unconverted raw column to the caller — the
`float()` coercion during id generation failing later in
`normalize_to_canonical_schema`; either way the whole file fails). -/
def process_amount_with_preset (toNumeric : String → Option Rat)
    (tbl : RawTable) (p : Preset) : Except Unit (List Rat) :=
  let ap := p.amount_processing
  if p.amount_columns = [] then
    -- source: logs a warning and returns the frame unchanged; the caller
    -- then reads `df_with_amount[amount]` (KeyError when absent) and each
    -- cell is coerced by `float()` when ids are generated (NaN amounts,
    -- i.e. missing cells, survive `float`; we render them as 0).
    if tbl.cols.contains "amount" then
      tbl.rows.mapM (fun r =>
        match getCell r "amount" with
        | none => Except.ok 0
        | some s =>
          match toNumeric s with
          | some q => Except.ok q
          | none => Except.error ())
    else Except.error ()
  else
    match ap.debit_column, ap.credit_column with
    | some dc, some cc =>
      -- separate debit/credit columns
      if tbl.cols.contains dc then
        if tbl.cols.contains cc then
          Except.ok (tbl.rows.map (fun r =>
            toNum0 toNumeric (getCell r dc) * ap.debit_multiplier.getD 1
              + toNum0 toNumeric (getCell r cc) * ap.credit_multiplier.getD (-1)))
        else Except.error ()
      else Except.error ()
    | _, _ =>
      match ap.amount_column with
      | some ac =>
        -- single amount column, optionally with a transaction-type column
        if tbl.cols.contains ac then
          match ap.transaction_type_column with
          | some tc =>
            if tc ≠ "" ∧ tbl.cols.contains tc then
              Except.ok (tbl.rows.map (fun r =>
                let a := toNum0 toNumeric (getCell r ac)
                let mult := ap.amount_multiplier.getD 1
                if isinValues r tc ap.debit_values then a * (-1) * mult
                else a * mult))
            else Except.ok (tbl.rows.map (fun r => toNum0 toNumeric (getCell r ac)))
          | none => Except.ok (tbl.rows.map (fun r => toNum0 toNumeric (getCell r ac)))
        else Except.error ()
      | none =>
        -- simple case: first declared amount column, preset-level multiplier
        match p.amount_columns with
        | c :: _ =>
          if tbl.cols.contains c then
            Except.ok (tbl.rows.map (fun r =>
              toNum0 toNumeric (getCell r c) * p.amount_multiplier.getD 1))
          else Except.error ()
        | [] => Except.error ()

/-! ### Normalization (normalize_to_canonical_schema) -/

/-- Date-column resolution of `normalize_to_canonical_schema`: the preset's
`date_column` (with its format) when set, else the literal `date` column;
`none` means the function logs an error and returns an empty frame. -/
def resolveDateColumn (p? : Option Preset) (cols : List String) :
    Option (String × Option String) :=
  match p? with
  | some p =>
    match p.date_column with
    | some dc => if cols.contains dc then some (dc, p.date_format) else none
    | none => if cols.contains "date" then some ("date", none) else none
  | none => if cols.contains "date" then some ("date", none) else none

/-- `series.astype(str)` for one cell: a missing value becomes the string
"nan" (the subsequent `.fillna('')` in the source is a no-op, since after
`astype(str)` no NaN remains). -/
def astypeStr : Option String → String
  | none => "nan"
  | some s => s

/-- The `description` column of one normalized row. -/
def descriptionOf (p? : Option Preset) (cols : List String) (r : RawRow) : String :=
  match p? with
  | some p =>
    match p.description_column with
    | some c => if cols.contains c then astypeStr (getCell r c) else ""
    | none =>
      if cols.contains "description" then astypeStr (getCell r "description") else ""
  | none =>
    if cols.contains "description" then astypeStr (getCell r "description") else ""

/-- The `transaction_type` column of one normalized row (inferred from the
amount sign when no column provides it). -/
def transactionTypeOf (p? : Option Preset) (cols : List String) (r : RawRow)
    (amt : Rat) : String :=
  let infer := if amt < 0 then "debit" else if 0 < amt then "credit" else "zero"
  match p? with
  | some p =>
    match p.transaction_type_column with
    | some c => if cols.contains c then astypeStr (getCell r c) else ""
    | none =>
      if cols.contains "transaction_type" then astypeStr (getCell r "transaction_type")
      else infer
  | none =>
    if cols.contains "transaction_type" then astypeStr (getCell r "transaction_type")
    else infer

/-- `dict(zip(categories[name], categories[id]))` — later duplicate names
overwrite earlier ones — followed by `.map`. -/
def categoryIdOf (p? : Option Preset) (cols : List String) (cats : List Category)
    (r : RawRow) : Option Int :=
  match p? with
  | some p =>
    match p.category_column with
    | some c =>
      if cols.contains c then
        (getCell r c).bind (fun v => ((cats.filter (fun k => k.name = v)).getLast?).map (·.id))
      else none
    | none => none
  | none => none

/-- The `amount` column of the normalized frame: delegated to
`process_amount_with_preset` when a preset exists, else the literal
`amount` column coerced to numeric (missing column gives constant 0). -/
def amountsOf (toNumeric : String → Option Rat) (tbl : RawTable)
    (p? : Option Preset) : Except Unit (List Rat) :=
  match p? with
  | some p => process_amount_with_preset toNumeric tbl p
  | none =>
    if tbl.cols.contains "amount" then
      Except.ok (tbl.rows.map (fun r => toNum0 toNumeric (getCell r "amount")))
    else Except.ok (tbl.rows.map (fun _ => 0))

/-- `normalize_to_canonical_schema`.  Returns `.ok []` where the source logs
an error and returns an empty frame (missing date column); `.error ()` where
a Python exception escapes (amount processing).  Rows whose date fails to
parse (NaT) are dropped at the end (`dropna(subset=[date])`); ids are
generated from `(account_id, date, amount, description)`; `created_at` and
`updated_at` are both the captured `now`. -/
def normalize_to_canonical_schema (toNumeric : String → Option Rat)
    (toDatetime : Option String → String → Option Nat) (tbl : RawTable)
    (account : Account) (p? : Option Preset) (cats : List Category)
    (now : String) : Except Unit (List Row) :=
  match resolveDateColumn p? tbl.cols with
  | none => Except.ok []
  | some (dc, fmt) =>
    match amountsOf toNumeric tbl p? with
    | Except.error e => Except.error e
    | Except.ok amts =>
      Except.ok ((tbl.rows.zip amts).filterMap (fun ra =>
        match (getCell ra.1 dc).bind (toDatetime fmt) with
        | none => none
        | some d =>
          let desc := descriptionOf p? tbl.cols ra.1
          some { id := generate_transaction_id account.id d ra.2 desc
               , date := d
               , description := desc
               , amount := ra.2
               , created_at := now
               , updated_at := now
               , account_id := account.id
               , category_id := categoryIdOf p? tbl.cols cats ra.1
               , transaction_type := transactionTypeOf p? tbl.cols ra.1 ra.2 }))

/-! ### Delta merge (delta_load_transactions) -/

/-- `series.min()` of the `date` column of a nonempty frame. -/
def minDateOf (l : List Row) : Nat :=
  match l.map (·.date) with
  | [] => 0
  | d :: ds => ds.foldl Nat.min d

/-- `series.max()` of the `date` column of a nonempty frame. -/
def maxDateOf (l : List Row) : Nat :=
  match l.map (·.date) with
  | [] => 0
  | d :: ds => ds.foldl Nat.max d

/-- The sort key of `sort_values([account_id, date])`. -/
def rowLE (a b : Row) : Bool :=
  decide (a.account_id < b.account_id
    ∨ (a.account_id = b.account_id ∧ a.date ≤ b.date))

/-- The rows *kept* by the merge: the negation of the removal mask
`(account_id == internal_id) & (min_date <= date) & (date <= max_date)`. -/
def keepMask (internalId : Int) (minD maxD : Nat) (r : Row) : Bool :=
  !(decide (r.account_id = internalId) &&
    (decide (minD ≤ r.date) && decide (r.date ≤ maxD)))

/-- `delta_load_transactions`: returns the updated ledger state together
with the value the function returns (`none` models the empty frame returned
on a precondition failure, in which case nothing is written).  All dates of
`new` are valid by construction (the model's dates are total), so the
`isna(min_date)` guard of the source can only fire through the emptiness
guard. -/
def delta_load_transactions (new : List Row) (account_number : Int)
    (accounts : List Account) (st : LedgerState) :
    LedgerState × Option (List Row) :=
  if new = [] then (st, none)
  else
    let minD := minDateOf new
    let maxD := maxDateOf new
    match accounts.find? (fun a => decide (a.number = account_number)) with
    | none => (st, none)
    | some acc =>
      let combined :=
        match st.file with
        | some existing => existing.filter (keepMask acc.id minD maxD) ++ new
        | none => new
      let sorted := combined.mergeSort rowLE
      (⟨some sorted⟩, some sorted)

/-! ### Per-file account processing (the loop body of process_account) -/

/-- Preset resolution of `process_account`:
`presets[presets[id] == account.default_import_preset_id]`, `None` when
unset or unresolvable. -/
def resolvePreset (acc : Account) (presets : List Preset) : Option Preset :=
  acc.default_import_preset_id.bind
    (fun pid => presets.find? (fun p => decide (p.id = pid)))

/-- One raw file with the context of its `process_account` invocation. -/
structure Batch where
  tbl : RawTable
  number : Int
  now : String
deriving DecidableEq

/-- The normalized rows one raw file contributes: empty when the account is
unknown, when normalization returns an empty frame, or when the per-file
`except` clause of `process_account` swallows an exception. -/
def fileNormalizedRows (toNumeric : String → Option Rat)
    (toDatetime : Option String → String → Option Nat)
    (accounts : List Account) (presets : List Preset) (cats : List Category)
    (b : Batch) : List Row :=
  match accounts.find? (fun a => decide (a.number = b.number)) with
  | none => []
  | some acc =>
    match normalize_to_canonical_schema toNumeric toDatetime b.tbl acc
        (resolvePreset acc presets) cats b.now with
    | Except.error _ => []
    | Except.ok rows => rows

/-- The body of `process_account`'s per-file loop: normalize, and when the
result is nonempty run the delta load; failures leave the ledger untouched. -/
def process_account_file (toNumeric : String → Option Rat)
    (toDatetime : Option String → String → Option Nat)
    (accounts : List Account) (presets : List Preset) (cats : List Category)
    (b : Batch) (st : LedgerState) : LedgerState :=
  let rows := fileNormalizedRows toNumeric toDatetime accounts presets cats b
  if rows = [] then st
  else (delta_load_transactions rows b.number accounts st).1

/-- A sequence of per-file pipeline runs. -/
def runPipeline (toNumeric : String → Option Rat)
    (toDatetime : Option String → String → Option Nat)
    (accounts : List Account) (presets : List Preset) (cats : List Category)
    (bs : List Batch) (st : LedgerState) : LedgerState :=
  bs.foldl (fun s b => process_account_file toNumeric toDatetime accounts presets cats b s) st

/-! ### Categorization write-back (categorize_transactions.show, save_transactions) -/

/-- `transactions_df.loc[transactions_df[id] == row[id], category_id] = value`
(`value` is the selected category, or NaN for the clear button). -/
def categorize_update (tx : List Row) (tid : TxId) (cat : Option Int) : List Row :=
  tx.map (fun r => if r.id = tid then { r with category_id := cat } else r)

/-- `save_transactions`: writes the frame as the new transactions file. -/
def save_transactions (tx : List Row) : LedgerState := ⟨some tx⟩

/-! ### Column bookkeeping (for the canonical-schema claim) -/

/-- The order in which `normalize_to_canonical_schema` inserts columns into
the `normalized` frame. -/
def normalizeInsertionOrder : List String :=
  ["date", "description", "amount", "transaction_type", "account_id",
   "category_id", "created_at", "updated_at", "id"]

/-- The `for col in CANONICAL_COLUMNS: if col not in ...` loop. -/
def ensureCanonicalColumns (cols : List String) : List String :=
  cols ++ CANONICAL_COLUMNS.filter (fun c => !cols.contains c)

/-- Column selection `frame[want]` (KeyError when a column is missing). -/
def selectColumns (cols want : List String) : Except Unit (List String) :=
  if want.all cols.contains then Except.ok want else Except.error ()

/-- The column order of the frame returned by `normalize_to_canonical_schema`
(`normalized = normalized[CANONICAL_COLUMNS]`). -/
def normalizedColumns : List String :=
  match selectColumns (ensureCanonicalColumns normalizeInsertionOrder) CANONICAL_COLUMNS with
  | Except.ok c => c
  | Except.error _ => []

/-- Column order of `pd.concat` of two frames (the union, in order of first
appearance). -/
def concatColumns (a b : List String) : List String :=
  a ++ b.filter (fun c => !a.contains c)

/-- The §3 data-model table order of the specification, for comparison with
the source's `CANONICAL_COLUMNS` (spec wording, not source). -/
def specSection3Columns : List String :=
  ["id", "date", "description", "amount", "transaction_type", "account_id",
   "category_id", "created_at", "updated_at"]

/-! ### Concrete instantiations used by the witnesses -/

/-- Digit-string accumulator for the concrete witness parser. -/
def digitsToNat (ds : List Char) : Nat :=
  ds.foldl (fun n c => 10 * n + (c.toNat - 48)) 0

/-- A concrete numeric parser for witnesses (unsigned integer literals;
anything else is non-numeric). -/
def decNumeric (s : String) : Option Rat :=
  match s.data with
  | [] => none
  | ds => if ds.all (·.isDigit) then some ((digitsToNat ds : Nat) : Rat) else none

/-- A concrete date parser for witnesses (day numbers, format ignored). -/
def dayParse : Option String → String → Option Nat := fun _ s =>
  match s.data with
  | [] => none
  | ds => if ds.all (·.isDigit) then some (digitsToNat ds) else none

/-! ## Claims -/

/-- Claim C4: with a preset whose amount processing names both a debit and a
credit column (and a nonempty `amount_columns` list, without which the
source returns before reaching the strategy), every row's amount is
debit·debit_multiplier (default 1) + credit·credit_multiplier (default −1),
with each cell coerced to numeric and non-numeric/missing cells treated
as 0. -/
theorem dual_column_amount_resolution (toNumeric : String → Option Rat)
    (tbl : RawTable) (p : Preset) (dc cc : String)
    (hdc : p.amount_processing.debit_column = some dc)
    (hcc : p.amount_processing.credit_column = some cc)
    (hcols : p.amount_columns ≠ [])
    (hdmem : dc ∈ tbl.cols) (hcmem : cc ∈ tbl.cols) :
    process_amount_with_preset toNumeric tbl p =
      Except.ok (tbl.rows.map (fun r =>
        toNum0 toNumeric (getCell r dc) * p.amount_processing.debit_multiplier.getD 1
          + toNum0 toNumeric (getCell r cc)
              * p.amount_processing.credit_multiplier.getD (-1))) := by
  unfold process_amount_with_preset
  rw [if_neg hcols, hdc, hcc]
  simp [hdmem, hcmem]

/-- Witness for C4 at the spec's own example: debit 50 / credit 0 gives +50
and debit 0 / credit 50 gives −50 under the default multipliers. -/
theorem dual_column_amount_resolution_witness :
    process_amount_with_preset decNumeric
      ⟨["Debit", "Credit"],
        [[("Debit", some "50"), ("Credit", some "0")],
         [("Debit", some "0"), ("Credit", some "50")]]⟩
      { id := 1, amount_columns := ["Debit", "Credit"]
      , amount_processing := { debit_column := some "Debit"
                             , credit_column := some "Credit" } }
      = Except.ok [50, -50] := by
  rw [dual_column_amount_resolution decNumeric _ _ "Debit" "Credit" rfl rfl
    (by decide) (by decide) (by decide)]
  simp only [Except.ok.injEq]
  simp +decide [toNum0, getCell, decNumeric, digitsToNat, List.lookup]

/-- Claim C5: with a preset whose amount processing names a single amount
column and a transaction-type column (present in the table, nonempty
`amount_columns`), each row's amount is the numeric value of the amount
column, negated and scaled by `amount_multiplier` (default 1) when the
row's type value is among `debit_values`, and merely scaled otherwise. -/
theorem type_discriminated_amount_resolution (toNumeric : String → Option Rat)
    (tbl : RawTable) (p : Preset) (ac tc : String)
    (hnodual : p.amount_processing.debit_column = none
      ∨ p.amount_processing.credit_column = none)
    (hac : p.amount_processing.amount_column = some ac)
    (htc : p.amount_processing.transaction_type_column = some tc)
    (hcols : p.amount_columns ≠ [])
    (hacm : ac ∈ tbl.cols)
    (htcne : tc ≠ "") (htcm : tc ∈ tbl.cols) :
    process_amount_with_preset toNumeric tbl p =
      Except.ok (tbl.rows.map (fun r =>
        let a := toNum0 toNumeric (getCell r ac)
        if isinValues r tc p.amount_processing.debit_values
        then a * (-1) * p.amount_processing.amount_multiplier.getD 1
        else a * p.amount_processing.amount_multiplier.getD 1)) := by
  unfold process_amount_with_preset
  rw [if_neg hcols]
  rcases hnodual with h | h
  · rw [h, hac, htc]
    simp [hacm, htcm, htcne]
  · rw [h]
    cases hdb : p.amount_processing.debit_column with
    | none =>
      rw [hac, htc]
      simp [hacm, htcm, htcne]
    | some d =>
      rw [hac, htc]
      simp [hacm, htcm, htcne]

/-- Witness for C5 at the spec's own example: amount 100 with type "DEBIT"
and `debit_values = ["DEBIT"]` yields −100. -/
theorem type_discriminated_amount_resolution_witness :
    process_amount_with_preset decNumeric
      ⟨["Amount", "Type"], [[("Amount", some "100"), ("Type", some "DEBIT")]]⟩
      { id := 2, amount_columns := ["Amount"]
      , amount_processing := { amount_column := some "Amount"
                             , transaction_type_column := some "Type"
                             , debit_values := ["DEBIT"] } }
      = Except.ok [-100] := by
  rw [type_discriminated_amount_resolution decNumeric _ _ "Amount" "Type"
    (Or.inl rfl) rfl rfl (by decide) (by decide) (by decide) (by decide)]
  simp only [Except.ok.injEq]
  simp +decide [toNum0, getCell, decNumeric, digitsToNat, isinValues, List.lookup]

/-- Claim C7: a merge invocation whose account number does not resolve in
the accounts table, or whose new frame is empty (the only way the model can
lack a valid date range, since modelled dates are total), returns without
touching the persisted ledger; the model stays total on these paths, which
is the source's no-escaping-exception behaviour (it logs and returns an
empty frame). -/
theorem merge_precondition_failure_nondestructive (new : List Row)
    (number : Int) (accounts : List Account) (st : LedgerState)
    (h : new = []
      ∨ accounts.find? (fun a => decide (a.number = number)) = none) :
    delta_load_transactions new number accounts st = (st, none) := by
  unfold delta_load_transactions
  rcases h with h | h
  · rw [if_pos h]
  · by_cases hnew : new = []
    · rw [if_pos hnew]
    · rw [if_neg hnew, h]

/-- Witness for C7: account number 42 is absent from a one-account table,
so the ledger state survives unchanged. -/
theorem merge_precondition_failure_nondestructive_witness :
    delta_load_transactions
      [{ id := generate_transaction_id 1 5 10 "x", date := 5, description := "x"
       , amount := 10, created_at := "t", updated_at := "t", account_id := 1
       , category_id := none, transaction_type := "credit" }]
      42 [{ id := 1, number := 7729, default_import_preset_id := none }]
      ⟨some []⟩
      = (⟨some []⟩, none) :=
  merge_precondition_failure_nondestructive _ 42 _ _ (Or.inr (by decide))

/-- Claim C8 counterexample: the categorization edit of
`categorize_transactions.show` assigns only `category_id` on the rows
matching the id — it takes no timestamp at all and leaves `updated_at`
exactly as it was, contradicting the claim that the edit updates the row's
`updated_at`. -/
theorem categorize_edit_leaves_updated_at :
    (categorize_update
        [{ id := generate_transaction_id 1 5 10 "x", date := 5, description := "x"
         , amount := 10, created_at := "2024-01-01T00:00:00"
         , updated_at := "2024-01-01T00:00:00", account_id := 1
         , category_id := none, transaction_type := "credit" }]
        (generate_transaction_id 1 5 10 "x") (some 7)).map (·.updated_at)
      = ["2024-01-01T00:00:00"] := by
  decide

/-- Claim C8, amended: the categorization edit updates exactly the
`category_id` of the rows whose id matches, and changes nothing else — every
other field of every row (including `updated_at`, which the code never
touches) is unchanged. -/
theorem categorize_edit_frame (tx : List Row) (tid : TxId) (cat : Option Int) :
    (categorize_update tx tid cat).map
        (fun r => (r.id, r.date, r.amount, r.account_id, r.description,
          r.transaction_type, r.created_at, r.updated_at))
      = tx.map (fun r => (r.id, r.date, r.amount, r.account_id, r.description,
          r.transaction_type, r.created_at, r.updated_at))
    ∧ (categorize_update tx tid cat).map (·.category_id)
      = tx.map (fun r => if r.id = tid then cat else r.category_id) := by
  constructor
  · rw [categorize_update, map_map]
    apply map_congr_left
    intro r _
    by_cases h : r.id = tid <;> simp [h]
  · rw [categorize_update, map_map]
    apply map_congr_left
    intro r _
    by_cases h : r.id = tid <;> simp [h]

/-- Claim C9 counterexample: the source's `CANONICAL_COLUMNS` — the exact
column order of normalization output and of the persisted ledger — is not
the §3 table order the claim states: position 4 holds `created_at`, not
`transaction_type`. -/
theorem canonical_columns_spec_order_mismatch :
    normalizedColumns ≠ specSection3Columns
    ∧ normalizedColumns[4]? = some "created_at" := by
  decide

/-- Claim C9, amended: normalization output carries exactly the canonical
field set — the same nine fields as the §3 table — but in the source's
`CANONICAL_COLUMNS` order (`id, date, description, amount, created_at,
updated_at, account_id, category_id, transaction_type`); concatenating
canonical frames during the merge preserves that exact column set and
order. -/
theorem canonical_columns_exact :
    normalizedColumns = CANONICAL_COLUMNS
    ∧ CANONICAL_COLUMNS.Perm specSection3Columns
    ∧ concatColumns CANONICAL_COLUMNS CANONICAL_COLUMNS = CANONICAL_COLUMNS := by
  refine ⟨by decide, ?_, by decide⟩
  decide

/-- Claim C6 (evaluating the code at the failing input): a row whose
preset-named description cell is missing gets description `"nan"`, not the
empty string — `astype(str)` renders NaN as the string "nan", and the
`.fillna('')` the source applies afterwards is dead because no NaN remains
after the cast.  The claim (and the surrounding dead code) state the
intended default of the empty string. -/
theorem missing_description_cell_becomes_nan :
    (normalize_to_canonical_schema decNumeric dayParse
        ⟨["d", "desc", "amt"], [[("d", some "7"), ("desc", none), ("amt", some "5")]]⟩
        { id := 1, number := 7729, default_import_preset_id := some 2 }
        (some { id := 2, date_column := some "d", description_column := some "desc"
              , amount_columns := ["amt"]
              , amount_processing := { amount_column := some "amt" } })
        [] "t0").map (fun rows => rows.map (·.description))
      = Except.ok ["nan"]
    ∧ astypeStr none ≠ "" := by
  constructor
  · simp +decide [normalize_to_canonical_schema, resolveDateColumn, amountsOf,
      process_amount_with_preset, descriptionOf, astypeStr, getCell, toNum0,
      decNumeric, digitsToNat, dayParse, List.lookup, Except.map]
  · decide

/-- Claim C10: a preset whose amount processing names a debit, credit, or
amount column that is absent from the raw table makes amount processing
raise a KeyError (rather than treating the missing column's cells as 0), so
normalization of that file fails as a whole once the date column resolved;
the per-file handler of `process_account` swallows the exception and the
file contributes zero rows — the ledger is untouched. -/
theorem missing_amount_column_fails_file (toNumeric : String → Option Rat)
    (toDatetime : Option String → String → Option Nat)
    (accounts : List Account) (presets : List Preset) (cats : List Category)
    (b : Batch) (st : LedgerState) (acc : Account) (p : Preset)
    (hacc : accounts.find? (fun a => decide (a.number = b.number)) = some acc)
    (hpre : resolvePreset acc presets = some p)
    (hcols : p.amount_columns ≠ [])
    (hmiss :
      (∃ dc cc, p.amount_processing.debit_column = some dc
        ∧ p.amount_processing.credit_column = some cc
        ∧ (dc ∉ b.tbl.cols ∨ cc ∉ b.tbl.cols))
      ∨ ((p.amount_processing.debit_column = none
            ∨ p.amount_processing.credit_column = none)
          ∧ ∃ ac, p.amount_processing.amount_column = some ac
              ∧ ac ∉ b.tbl.cols)) :
    process_amount_with_preset toNumeric b.tbl p = Except.error ()
    ∧ ((resolveDateColumn (some p) b.tbl.cols).isSome →
        normalize_to_canonical_schema toNumeric toDatetime b.tbl acc (some p)
          cats b.now = Except.error ())
    ∧ process_account_file toNumeric toDatetime accounts presets cats b st = st := by
  have herr : process_amount_with_preset toNumeric b.tbl p = Except.error () := by
    unfold process_amount_with_preset
    rw [if_neg hcols]
    rcases hmiss with ⟨dc, cc, hdc, hcc, hor⟩ | ⟨hnodual, ac, hac, hacn⟩
    · rw [hdc, hcc]
      rcases hor with h | h <;> simp [h]
    · rcases hnodual with h | h
      · rw [h, hac]
        simp [hacn]
      · rw [h]
        cases hdb : p.amount_processing.debit_column <;>
          · rw [hac]
            simp [hacn]
  have hnorm : (resolveDateColumn (some p) b.tbl.cols).isSome →
      normalize_to_canonical_schema toNumeric toDatetime b.tbl acc (some p)
        cats b.now = Except.error () := by
    intro hds
    obtain ⟨dcf, hdc2⟩ := Option.isSome_iff_exists.mp hds
    unfold normalize_to_canonical_schema
    rw [hdc2]
    simp only [amountsOf, herr]
  refine ⟨herr, hnorm, ?_⟩
  unfold process_account_file fileNormalizedRows
  simp only [hacc, hpre]
  cases hrd : resolveDateColumn (some p) b.tbl.cols with
  | none =>
    have : normalize_to_canonical_schema toNumeric toDatetime b.tbl acc (some p)
        cats b.now = Except.ok [] := by
      unfold normalize_to_canonical_schema
      rw [hrd]
    rw [this]
    simp
  | some v =>
    rw [hnorm (by rw [hrd]; rfl)]
    simp

/-- Witness for C10: a preset naming debit/credit columns against a table
that only has a `Monto` column ends in an error and an unchanged ledger. -/
theorem missing_amount_column_fails_file_witness :
    process_amount_with_preset decNumeric
      ⟨["d", "Monto"], [[("d", some "7"), ("Monto", some "5")]]⟩
      { id := 3, date_column := some "d", amount_columns := ["Debit", "Credit"]
      , amount_processing := { debit_column := some "Debit"
                             , credit_column := some "Credit" } }
      = Except.error ()
    ∧ process_account_file decNumeric dayParse
        [{ id := 1, number := 7729, default_import_preset_id := some 3 }]
        [{ id := 3, date_column := some "d", amount_columns := ["Debit", "Credit"]
         , amount_processing := { debit_column := some "Debit"
                                , credit_column := some "Credit" } }]
        [] ⟨⟨["d", "Monto"], [[("d", some "7"), ("Monto", some "5")]]⟩, 7729, "t0"⟩
        ⟨some []⟩
      = ⟨some []⟩ := by
  have h := missing_amount_column_fails_file decNumeric dayParse
    [{ id := 1, number := 7729, default_import_preset_id := some 3 }]
    [{ id := 3, date_column := some "d", amount_columns := ["Debit", "Credit"]
     , amount_processing := { debit_column := some "Debit"
                            , credit_column := some "Credit" } }]
    [] ⟨⟨["d", "Monto"], [[("d", some "7"), ("Monto", some "5")]]⟩, 7729, "t0"⟩
    ⟨some []⟩ _ _ rfl rfl (by decide)
    (Or.inl ⟨"Debit", "Credit", rfl, rfl, Or.inl (by decide)⟩)
  exact ⟨h.1, h.2.2⟩

/-- Claim C3: a merge of a nonempty batch for a resolvable account replaces
exactly the window — the resulting ledger rows are (up to the final sort) the
existing rows *not* matching the removal mask (same internal account id and
date within `[min_date, max_date]` inclusive) followed by all new rows;
rows of other accounts and rows of this account outside the window survive
unchanged, and masked rows are gone. -/
theorem window_replacement_merge (new : List Row) (number : Int)
    (accounts : List Account) (st : LedgerState) (acc : Account)
    (hne : new ≠ [])
    (hacc : accounts.find? (fun a => decide (a.number = number)) = some acc) :
    ((delta_load_transactions new number accounts st).1.file.getD []).Perm
      ((st.file.getD []).filter
        (keepMask acc.id (minDateOf new) (maxDateOf new)) ++ new) := by
  unfold delta_load_transactions
  rw [if_neg hne, hacc]
  cases st.file with
  | none => simpa using mergeSort_perm new rowLE
  | some existing =>
    simpa using mergeSort_perm
      (existing.filter (keepMask acc.id (minDateOf new) (maxDateOf new)) ++ new) rowLE

/-- A concrete ledger row for witnesses: account 1, day 1. -/
def oldRow1 : Row :=
  { id := generate_transaction_id 1 1 10 "old1", date := 1, description := "old1"
  , amount := 10, created_at := "t0", updated_at := "t0", account_id := 1
  , category_id := none, transaction_type := "credit" }

/-- A concrete ledger row for witnesses: account 1, day 5 (old import). -/
def oldRow5 : Row :=
  { id := generate_transaction_id 1 5 30 "old5", date := 5, description := "old5"
  , amount := 30, created_at := "t0", updated_at := "t0", account_id := 1
  , category_id := none, transaction_type := "credit" }

/-- A concrete ledger row for witnesses: account 1, day 5 (reimport). -/
def newRow5 : Row :=
  { id := generate_transaction_id 1 5 20 "new5", date := 5, description := "new5"
  , amount := 20, created_at := "t1", updated_at := "t1", account_id := 1
  , category_id := none, transaction_type := "credit" }

/-- Witness for C3: an account with rows on days 1 and 5 reimported for the
one-day window 5 keeps day 1, drops the old day-5 row, and gains the new
one. -/
theorem window_replacement_merge_witness :
    ((delta_load_transactions [newRow5] 7729
        [{ id := 1, number := 7729, default_import_preset_id := none }]
        ⟨some [oldRow1, oldRow5]⟩).1.file.getD []).Perm
      (([oldRow1, oldRow5].filter
          (keepMask 1 (minDateOf [newRow5]) (maxDateOf [newRow5])))
        ++ [newRow5]) :=
  window_replacement_merge [newRow5] 7729 _ _
    { id := 1, number := 7729, default_import_preset_id := none }
    (by simp) rfl

/-! ### Supporting lemmas for idempotence and id uniqueness -/

/-- Replace both timestamps of a row (what re-normalizing at another time
does to a row). -/
def setNow (t : String) (r : Row) : Row := { r with created_at := t, updated_at := t }

theorem normalize_setNow (toNumeric : String → Option Rat)
    (toDatetime : Option String → String → Option Nat) (tbl : RawTable)
    (account : Account) (p? : Option Preset) (cats : List Category)
    (t1 t2 : String) :
    normalize_to_canonical_schema toNumeric toDatetime tbl account p? cats t2
      = (normalize_to_canonical_schema toNumeric toDatetime tbl account p? cats t1).map
          (List.map (setNow t2)) := by
  unfold normalize_to_canonical_schema
  cases hrd : resolveDateColumn p? tbl.cols with
  | none => rfl
  | some dcf =>
    obtain ⟨dc, fmt⟩ := dcf
    cases hamt : amountsOf toNumeric tbl p? with
    | error e => rfl
    | ok amts =>
      simp only [Except.map]
      congr 1
      rw [map_filterMap]
      apply filterMap_congr
      intro ra _
      cases (getCell ra.1 dc).bind (toDatetime fmt) <;> rfl

theorem normalize_rows_fields (toNumeric : String → Option Rat)
    (toDatetime : Option String → String → Option Nat) (tbl : RawTable)
    (account : Account) (p? : Option Preset) (cats : List Category)
    (now : String) (rows : List Row)
    (h : normalize_to_canonical_schema toNumeric toDatetime tbl account p? cats now
      = Except.ok rows) :
    ∀ r ∈ rows, r.account_id = account.id
      ∧ r.id = generate_transaction_id r.account_id r.date r.amount r.description := by
  unfold normalize_to_canonical_schema at h
  cases hrd : resolveDateColumn p? tbl.cols with
  | none =>
    rw [hrd] at h
    cases h
    intro r hr
    cases hr
  | some dcf =>
    obtain ⟨dc, fmt⟩ := dcf
    rw [hrd] at h
    cases hamt : amountsOf toNumeric tbl p? with
    | error e =>
      rw [hamt] at h
      cases h
    | ok amts =>
      rw [hamt] at h
      cases h
      intro r hr
      rw [mem_filterMap] at hr
      obtain ⟨ra, _, hra⟩ := hr
      cases hd : (getCell ra.1 dc).bind (toDatetime fmt) with
      | none => rw [hd] at hra; cases hra
      | some d =>
        rw [hd] at hra
        cases hra
        exact ⟨rfl, rfl⟩

theorem foldl_min_le_init (ds : List Nat) : ∀ d, ds.foldl Nat.min d ≤ d := by
  induction ds with
  | nil => intro d; exact Nat.le_refl d
  | cons e es ih =>
    intro d
    exact Nat.le_trans (ih (Nat.min d e)) (Nat.min_le_left d e)

theorem foldl_min_le_mem {ds : List Nat} {x : Nat} (h : x ∈ ds) :
    ∀ d, ds.foldl Nat.min d ≤ x := by
  induction ds with
  | nil => cases h
  | cons e es ih =>
    intro d
    rcases mem_cons.mp h with rfl | h'
    · exact Nat.le_trans (foldl_min_le_init es (Nat.min d x)) (Nat.min_le_right d x)
    · exact ih h' (Nat.min d e)

theorem init_le_foldl_max (ds : List Nat) : ∀ d, d ≤ ds.foldl Nat.max d := by
  induction ds with
  | nil => intro d; exact Nat.le_refl d
  | cons e es ih =>
    intro d
    exact Nat.le_trans (Nat.le_max_left d e) (ih (Nat.max d e))

theorem mem_le_foldl_max {ds : List Nat} {x : Nat} (h : x ∈ ds) :
    ∀ d, x ≤ ds.foldl Nat.max d := by
  induction ds with
  | nil => cases h
  | cons e es ih =>
    intro d
    rcases mem_cons.mp h with rfl | h'
    · exact Nat.le_trans (Nat.le_max_right d x) (init_le_foldl_max es (Nat.max d x))
    · exact ih h' (Nat.max d e)

theorem minDateOf_le_of_mem {l : List Row} {r : Row} (h : r ∈ l) :
    minDateOf l ≤ r.date := by
  unfold minDateOf
  cases hl : l.map (·.date) with
  | nil => cases l <;> simp_all
  | cons d ds =>
    have : r.date ∈ d :: ds := by
      rw [← hl]
      exact mem_map_of_mem _ h
    rcases mem_cons.mp this with heq | hmem
    · rw [heq]
      exact foldl_min_le_init ds d
    · exact foldl_min_le_mem hmem d

theorem le_maxDateOf_of_mem {l : List Row} {r : Row} (h : r ∈ l) :
    r.date ≤ maxDateOf l := by
  unfold maxDateOf
  cases hl : l.map (·.date) with
  | nil => cases l <;> simp_all
  | cons d ds =>
    have : r.date ∈ d :: ds := by
      rw [← hl]
      exact mem_map_of_mem _ h
    rcases mem_cons.mp this with heq | hmem
    · rw [heq]
      exact init_le_foldl_max ds d
    · exact mem_le_foldl_max hmem d

theorem minDateOf_map_setNow (l : List Row) (t : String) :
    minDateOf (l.map (setNow t)) = minDateOf l := by
  unfold minDateOf
  rw [map_map]
  rfl

theorem maxDateOf_map_setNow (l : List Row) (t : String) :
    maxDateOf (l.map (setNow t)) = maxDateOf l := by
  unfold maxDateOf
  rw [map_map]
  rfl

theorem rowLE_trans (a b c : Row) (hab : rowLE a b) (hbc : rowLE b c) :
    rowLE a c := by
  simp only [rowLE, decide_eq_true_eq] at hab hbc ⊢
  omega

theorem rowLE_total (a b : Row) : rowLE a b || rowLE b a := by
  rw [Bool.or_eq_true]
  simp only [rowLE, decide_eq_true_eq]
  omega

theorem keepMask_false_of_mem {new : List Row} {r : Row} {aid : Int}
    (haccid : r.account_id = aid) (hmem : r ∈ new) :
    keepMask aid (minDateOf new) (maxDateOf new) r = false := by
  simp only [keepMask, Bool.not_eq_eq_eq_not, Bool.not_false, Bool.and_eq_true,
    decide_eq_true_eq]
  exact ⟨haccid, minDateOf_le_of_mem hmem, le_maxDateOf_of_mem hmem⟩

theorem filter_keepMask_self_eq_nil {new : List Row} {aid : Int}
    (haccid : ∀ r ∈ new, r.account_id = aid) :
    new.filter (keepMask aid (minDateOf new) (maxDateOf new)) = [] := by
  rw [filter_eq_nil_iff]
  intro r hr
  rw [keepMask_false_of_mem (haccid r hr) hr]
  simp

theorem delta_load_idem (N : List Row) (number : Int) (accounts : List Account)
    (st : LedgerState) (t2 : String) (acc : Account)
    (hacc : accounts.find? (fun a => decide (a.number = number)) = some acc)
    (haccid : ∀ r ∈ N, r.account_id = acc.id)
    (hne : N ≠ []) :
    (delta_load_transactions (N.map (setNow t2)) number accounts
        (delta_load_transactions N number accounts st).1).1
      = (delta_load_transactions (N.map (setNow t2)) number accounts st).1 := by
  have hne2 : N.map (setNow t2) ≠ [] := by
    simpa using hne
  unfold delta_load_transactions
  rw [if_neg hne, if_neg hne2, hacc]
  simp only [minDateOf_map_setNow, maxDateOf_map_setNow]
  have hfilterN : N.filter (keepMask acc.id (minDateOf N) (maxDateOf N)) = [] :=
    filter_keepMask_self_eq_nil haccid
  cases st.file with
  | none =>
    simp only
    rw [mergeSort_filter_comm rowLE_trans rowLE_total
      (keepMask acc.id (minDateOf N) (maxDateOf N)) N]
    rw [hfilterN]
    simp [hne, hne2]
  | some existing =>
    simp only
    rw [mergeSort_filter_comm rowLE_trans rowLE_total
      (keepMask acc.id (minDateOf N) (maxDateOf N))
      (existing.filter (keepMask acc.id (minDateOf N) (maxDateOf N)) ++ N)]
    rw [filter_append, hfilterN, filter_filter]
    have hpp : (fun a => keepMask acc.id (minDateOf N) (maxDateOf N) a
        && keepMask acc.id (minDateOf N) (maxDateOf N) a)
        = keepMask acc.id (minDateOf N) (maxDateOf N) := by
      funext a
      rw [Bool.and_self]
    rw [hpp, append_nil]
    rw [mergeSort_sorted_append rowLE_trans rowLE_total]
    simp [hne, hne2]

/-- `process_account_file`, unfolded (definitional restatement used to steer
rewriting). -/
theorem process_account_file_eq (toNumeric : String → Option Rat)
    (toDatetime : Option String → String → Option Nat)
    (accounts : List Account) (presets : List Preset) (cats : List Category)
    (b : Batch) (st : LedgerState) :
    process_account_file toNumeric toDatetime accounts presets cats b st
      = if fileNormalizedRows toNumeric toDatetime accounts presets cats b = [] then st
        else (delta_load_transactions
          (fileNormalizedRows toNumeric toDatetime accounts presets cats b)
          b.number accounts st).1 := rfl

theorem fileNormalizedRows_account_id (toNumeric : String → Option Rat)
    (toDatetime : Option String → String → Option Nat)
    (accounts : List Account) (presets : List Preset) (cats : List Category)
    (b : Batch) (acc : Account)
    (hacc : accounts.find? (fun a => decide (a.number = b.number)) = some acc) :
    ∀ r ∈ fileNormalizedRows toNumeric toDatetime accounts presets cats b,
      r.account_id = acc.id := by
  intro r hr
  have hrw : fileNormalizedRows toNumeric toDatetime accounts presets cats b
      = match normalize_to_canonical_schema toNumeric toDatetime b.tbl acc
          (resolvePreset acc presets) cats b.now with
        | Except.error _ => []
        | Except.ok rows => rows := by
    unfold fileNormalizedRows
    rw [hacc]
  rw [hrw] at hr
  revert hr
  cases hnorm : normalize_to_canonical_schema toNumeric toDatetime b.tbl acc
      (resolvePreset acc presets) cats b.now with
  | error e =>
    intro hr
    cases hr
  | ok rows =>
    intro hr
    exact (normalize_rows_fields toNumeric toDatetime b.tbl acc
      (resolvePreset acc presets) cats b.now rows hnorm r hr).1

/-- Claim C1: running normalization followed by delta merge twice in
succession on the same raw file for the same account yields the persisted
ledger state of running it once: the second run's rows carry the same ids
and dates (only the captured timestamps differ between the runs) and fully
replace the first run's rows in the same date window, so the double run
coincides exactly with the single run performed at the second run's time,
for every starting ledger state and on every path (success, parse failure,
unknown account). -/
theorem pipeline_idempotent (toNumeric : String → Option Rat)
    (toDatetime : Option String → String → Option Nat)
    (accounts : List Account) (presets : List Preset) (cats : List Category)
    (tbl : RawTable) (number : Int) (t1 t2 : String) (st : LedgerState) :
    process_account_file toNumeric toDatetime accounts presets cats ⟨tbl, number, t2⟩
      (process_account_file toNumeric toDatetime accounts presets cats ⟨tbl, number, t1⟩ st)
      = process_account_file toNumeric toDatetime accounts presets cats ⟨tbl, number, t2⟩ st := by
  have hN2 : fileNormalizedRows toNumeric toDatetime accounts presets cats ⟨tbl, number, t2⟩
      = (fileNormalizedRows toNumeric toDatetime accounts presets cats
          ⟨tbl, number, t1⟩).map (setNow t2) := by
    unfold fileNormalizedRows
    cases hacc : accounts.find? (fun a => decide (a.number = number)) with
    | none => rfl
    | some acc =>
      simp only
      rw [normalize_setNow toNumeric toDatetime tbl acc (resolvePreset acc presets) cats t1 t2]
      cases normalize_to_canonical_schema toNumeric toDatetime tbl acc
        (resolvePreset acc presets) cats t1 <;> rfl
  rw [process_account_file_eq, process_account_file_eq, process_account_file_eq]
  by_cases h1 : fileNormalizedRows toNumeric toDatetime accounts presets cats
      ⟨tbl, number, t1⟩ = []
  · have h2 : fileNormalizedRows toNumeric toDatetime accounts presets cats
        ⟨tbl, number, t2⟩ = [] := by
      rw [hN2, h1]
      rfl
    rw [h1, h2]
    simp
  · have h2 : fileNormalizedRows toNumeric toDatetime accounts presets cats
        ⟨tbl, number, t2⟩ ≠ [] := by
      rw [hN2]
      simpa using h1
    cases hacc : accounts.find? (fun a => decide (a.number = number)) with
    | none =>
      exact absurd (by unfold fileNormalizedRows; rw [hacc]) h1
    | some acc =>
      rw [if_neg h2, if_neg h2, if_neg h1, hN2]
      exact delta_load_idem _ number accounts st t2 acc hacc
        (fileNormalizedRows_account_id toNumeric toDatetime accounts presets cats
          ⟨tbl, number, t1⟩ acc hacc) h1

/-! ### Ledger id uniqueness -/

/-- Every row's id is the digest of its own (account_id, date, amount,
description) quadruple — true of all normalization output, and preserved by
the merge. -/
def rowsIdCoherent (l : List Row) : Prop :=
  ∀ r ∈ l, r.id = generate_transaction_id r.account_id r.date r.amount r.description

/-- The uniqueness invariant carried through merge sequences: ids are
pairwise distinct and coherent with the rows' own fields. -/
def ledgerIdsUniqueInv (st : LedgerState) : Prop :=
  ((st.file.getD []).map (·.id)).Nodup ∧ rowsIdCoherent (st.file.getD [])

theorem fileNormalizedRows_id_coherent (toNumeric : String → Option Rat)
    (toDatetime : Option String → String → Option Nat)
    (accounts : List Account) (presets : List Preset) (cats : List Category)
    (b : Batch) :
    rowsIdCoherent (fileNormalizedRows toNumeric toDatetime accounts presets cats b) := by
  intro r hr
  unfold fileNormalizedRows at hr
  revert hr
  cases hacc : accounts.find? (fun a => decide (a.number = b.number)) with
  | none =>
    intro hr
    cases hr
  | some acc =>
    simp only
    cases hnorm : normalize_to_canonical_schema toNumeric toDatetime b.tbl acc
        (resolvePreset acc presets) cats b.now with
    | error e =>
      intro hr
      cases hr
    | ok rows =>
      intro hr
      exact (normalize_rows_fields toNumeric toDatetime b.tbl acc
        (resolvePreset acc presets) cats b.now rows hnorm r hr).2

theorem delta_load_preserves_id_nodup (N : List Row) (number : Int)
    (accounts : List Account) (st : LedgerState)
    (hN : (N.map (·.id)).Nodup)
    (hNcoh : rowsIdCoherent N)
    (haccid : ∀ acc, accounts.find? (fun a => decide (a.number = number)) = some acc →
      ∀ r ∈ N, r.account_id = acc.id)
    (hinv : ledgerIdsUniqueInv st) :
    ledgerIdsUniqueInv (delta_load_transactions N number accounts st).1 := by
  by_cases hne : N = []
  · unfold delta_load_transactions
    rw [if_pos hne]
    exact hinv
  · unfold delta_load_transactions
    rw [if_neg hne]
    cases hacc : accounts.find? (fun a => decide (a.number = number)) with
    | none => exact hinv
    | some acc =>
      have haccid' := haccid acc hacc
      cases hfile : st.file with
      | none =>
        refine ⟨?_, ?_⟩
        · exact (((mergeSort_perm N rowLE).map (·.id)).symm).nodup hN
        · intro r hr
          have hr' : r ∈ N.mergeSort rowLE := hr
          rw [mem_mergeSort] at hr'
          exact hNcoh r hr' 
      | some ex =>
        have hexnodup : (ex.map (·.id)).Nodup := by
          have := hinv.1
          rw [hfile] at this
          exact this
        have hexcoh : rowsIdCoherent ex := by
          intro r hr
          have := hinv.2
          rw [hfile] at this
          exact this r hr
        refine ⟨?_, ?_⟩
        · apply (((mergeSort_perm _ rowLE).map (·.id)).symm).nodup
          rw [map_append]
          rw [List.nodup_append]
          refine ⟨?_, hN, ?_⟩
          · exact ((filter_sublist ex).map (·.id)).nodup hexnodup
          · intro i hiold hinew
            obtain ⟨o, ho, hoid⟩ := mem_map.mp hiold
            obtain ⟨n, hn, hnid⟩ := mem_map.mp hinew
            have ho' := mem_filter.mp ho
            have hid : generate_transaction_id o.account_id o.date o.amount o.description
                = generate_transaction_id n.account_id n.date n.amount n.description := by
              rw [← hexcoh o ho'.1, ← hNcoh n hn, hoid, hnid]
            have hcomp : o.account_id = n.account_id ∧ o.date = n.date := by
              have := congrArg TxId.account_id hid
              have hd := congrArg TxId.date hid
              exact ⟨this, hd⟩
            have hmask : keepMask acc.id (minDateOf N) (maxDateOf N) o = false := by
              simp only [keepMask, Bool.not_eq_eq_eq_not, Bool.not_false, Bool.and_eq_true,
                decide_eq_true_eq]
              refine ⟨hcomp.1.trans (haccid' n hn), ?_, ?_⟩
              · rw [hcomp.2]
                exact minDateOf_le_of_mem hn
              · rw [hcomp.2]
                exact le_maxDateOf_of_mem hn
            rw [ho'.2] at hmask
            cases hmask
        · intro r hr
          have hr' : r ∈ (ex.filter (keepMask acc.id (minDateOf N) (maxDateOf N))
              ++ N).mergeSort rowLE := hr
          rw [mem_mergeSort] at hr'
          rcases mem_append.mp hr' with h | h
          · exact hexcoh r (mem_filter.mp h).1
          · exact hNcoh r h

theorem process_account_file_preserves_id_nodup (toNumeric : String → Option Rat)
    (toDatetime : Option String → String → Option Nat)
    (accounts : List Account) (presets : List Preset) (cats : List Category)
    (b : Batch) (st : LedgerState)
    (hb : ((fileNormalizedRows toNumeric toDatetime accounts presets cats b).map
      (·.id)).Nodup)
    (hst : ledgerIdsUniqueInv st) :
    ledgerIdsUniqueInv
      (process_account_file toNumeric toDatetime accounts presets cats b st) := by
  rw [process_account_file_eq]
  by_cases h : fileNormalizedRows toNumeric toDatetime accounts presets cats b = []
  · rw [if_pos h]
    exact hst
  · rw [if_neg h]
    exact delta_load_preserves_id_nodup _ _ _ _ hb
      (fileNormalizedRows_id_coherent toNumeric toDatetime accounts presets cats b)
      (fun acc hacc => fileNormalizedRows_account_id toNumeric toDatetime accounts
        presets cats b acc hacc)
      hst

theorem runPipeline_id_nodup (toNumeric : String → Option Rat)
    (toDatetime : Option String → String → Option Nat)
    (accounts : List Account) (presets : List Preset) (cats : List Category)
    (bs : List Batch) :
    ∀ st, (∀ b ∈ bs, ((fileNormalizedRows toNumeric toDatetime accounts presets cats
        b).map (·.id)).Nodup) →
      ledgerIdsUniqueInv st →
      ledgerIdsUniqueInv (runPipeline toNumeric toDatetime accounts presets cats bs st) := by
  induction bs with
  | nil =>
    intro st _ hst
    exact hst
  | cons b bs ih =>
    intro st h hst
    unfold runPipeline
    rw [foldl_cons]
    exact ih _ (fun b' hb' => h b' (mem_cons_of_mem _ hb'))
      (process_account_file_preserves_id_nodup toNumeric toDatetime accounts presets
        cats b st (h b (mem_cons_self _ _)) hst)

/-- Claim C2, amended: after any sequence of normalize-and-merge operations
*whose individual files do not themselves contain duplicate rows* (no two
rows of one normalized batch share an id, i.e. no two input rows of one file
have identical (account_id, date, amount, description)), the ledger contains
at most one row with a given id.  The unamended claim fails because the code
never deduplicates within a batch: two identical input rows in the same file
both reach the ledger, sharing an id, instead of collapsing to one row. -/
theorem ledger_ids_unique (toNumeric : String → Option Rat)
    (toDatetime : Option String → String → Option Nat)
    (accounts : List Account) (presets : List Preset) (cats : List Category)
    (bs : List Batch)
    (h : ∀ b ∈ bs, ((fileNormalizedRows toNumeric toDatetime accounts presets cats
      b).map (·.id)).Nodup) :
    (((runPipeline toNumeric toDatetime accounts presets cats bs
      ⟨none⟩).file.getD []).map (·.id)).Nodup :=
  (runPipeline_id_nodup toNumeric toDatetime accounts presets cats bs ⟨none⟩ h
    ⟨by simp, fun r hr => absurd hr (by simp)⟩).1

/-- Witness for the amended C2: one import of a one-row file produces a
ledger with pairwise-distinct ids. -/
theorem ledger_ids_unique_witness :
    (((runPipeline decNumeric dayParse
        [{ id := 1, number := 7729, default_import_preset_id := none }] [] []
        [⟨⟨["date", "description", "amount"],
           [[("date", some "1"), ("description", some "x"), ("amount", some "5")]]⟩,
          7729, "t0"⟩] ⟨none⟩).file.getD []).map (·.id)).Nodup :=
  ledger_ids_unique decNumeric dayParse
    [{ id := 1, number := 7729, default_import_preset_id := none }] [] [] _
    (by
      intro b hb
      rw [mem_singleton] at hb
      subst hb
      decide)

/-- The canonical row produced by the duplicated raw line of the C2
counterexample. -/
def dupRow : Row :=
  { id := generate_transaction_id 1 1 ((digitsToNat ['5'] : Nat) : Rat) "x"
  , date := 1, description := "x", amount := ((digitsToNat ['5'] : Nat) : Rat)
  , created_at := "t0", updated_at := "t0", account_id := 1, category_id := none
  , transaction_type := "credit" }

/-- Claim C2 counterexample: importing a file that contains the same line
twice yields a ledger holding two rows with the same id — the pipeline never
collapses duplicate rows within a batch, so the ledger does not keep at most
one row per id. -/
theorem duplicate_rows_share_id :
    ¬ (((runPipeline decNumeric dayParse
          [{ id := 1, number := 7729, default_import_preset_id := none }] [] []
          [⟨⟨["date", "description", "amount"],
             [[("date", some "1"), ("description", some "x"), ("amount", some "5")],
              [("date", some "1"), ("description", some "x"), ("amount", some "5")]]⟩,
            7729, "t0"⟩] ⟨none⟩).file.getD []).map (·.id)).Nodup := by
  have hN : fileNormalizedRows decNumeric dayParse
      [{ id := 1, number := 7729, default_import_preset_id := none }] [] []
      ⟨⟨["date", "description", "amount"],
        [[("date", some "1"), ("description", some "x"), ("amount", some "5")],
         [("date", some "1"), ("description", some "x"), ("amount", some "5")]]⟩,
       7729, "t0"⟩
      = [dupRow, dupRow] := by
    rfl
  have hrun : runPipeline decNumeric dayParse
      [{ id := 1, number := 7729, default_import_preset_id := none }] [] []
      [⟨⟨["date", "description", "amount"],
         [[("date", some "1"), ("description", some "x"), ("amount", some "5")],
          [("date", some "1"), ("description", some "x"), ("amount", some "5")]]⟩,
        7729, "t0"⟩] ⟨none⟩
      = ⟨some (([dupRow, dupRow] : List Row).mergeSort rowLE)⟩ := by
    unfold runPipeline
    rw [foldl_cons, foldl_nil, process_account_file_eq, hN]
    rw [if_neg (by simp)]
    rfl
  rw [hrun]
  intro hnodup
  have hperm : ((([dupRow, dupRow] : List Row).mergeSort rowLE).map (·.id)).Perm
      (([dupRow, dupRow] : List Row).map (·.id)) := (mergeSort_perm _ _).map _
  have hdup := hperm.nodup hnodup
  simp at hdup

end Saldo
